import Mathlib

/-!
Verification of the ZeroTier rust-zerotier-core node wrapper and the
rust-zerotier-service control loop.

The development shallowly embeds, in Lean, the code of
`rust-zerotier-core/src/node.rs` (network registry join/leave/drop,
buffer ownership transfer, background-task delay clamping) and of
`rust-zerotier-service/src/service.rs` (event handling, config-change
check, socket reconciliation and port-health classification), and proves
properties of those embeddings.
-/

namespace ZT

/-- The per-call result codes of the core (the `ResultCode` enum of the
core crate). Only the distinction between `ok` and the error codes
matters to the wrapper logic embedded here. -/
inductive ResultCode where
  | ok
  | fatalErrorOutOfMemory
  | fatalErrorDataStoreFailed
  | fatalErrorInternal
  | errorNetworkNotFound
  | errorUnsupportedOperation
  | errorBadParameter
  | errorInvalidCredential
  | errorCollidingObject
  | errorInternalNonFatal
  deriving DecidableEq, Repr

/-- The core event kinds (`enum Event` in node.rs). -/
inductive Event where
  | up
  | offline
  | online
  | down
  | trace
  | userMessage
  deriving DecidableEq, Repr

/-! ## Background task scheduling (node.rs, `process_background_tasks`) -/

/-- Maximum delay between calls to run_background_tasks() (node.rs). -/
def NODE_BACKGROUND_TASKS_MAX_INTERVAL : Int := 250

/-- Reduction of an unbounded integer to two's-complement i64, as Rust
wrapping arithmetic would produce. -/
def toI64 (x : Int) : Int :=
  (x + 2 ^ 63) % 2 ^ 64 - 2 ^ 63

/-- `Node::process_background_tasks` (node.rs): the engine returns an
absolute deadline `next_task_deadline`; the wrapper computes
`next_delay = next_task_deadline - current_time` (i64 arithmetic) and
clamps it into `[1, NODE_BACKGROUND_TASKS_MAX_INTERVAL]`. -/
def process_background_tasks (current_time next_task_deadline : Int) : Int :=
  let next_delay := toI64 (next_task_deadline - current_time)
  if next_delay < 1 then 1
  else if next_delay > NODE_BACKGROUND_TASKS_MAX_INTERVAL then
    NODE_BACKGROUND_TASKS_MAX_INTERVAL
  else next_delay

/-! ## Service event handler (service.rs, `impl NodeEventHandler for Service`) -/

/-- The run/online flag pair owned by the service (`Service.run`,
`Service.online` in service.rs). -/
structure ServiceState where
  run : Bool
  online : Bool
  deriving DecidableEq, Repr

/-- `Service::event` (service.rs): the store operations performed on the
run/online flags for each event kind. `Up`, `Trace` and `UserMessage`
leave both flags alone; `Down` stores false into `run`; `Online` and
`Offline` both store true into `online`. -/
def serviceEvent (s : ServiceState) (e : Event) : ServiceState :=
  match e with
  | Event.up => s
  | Event.down => { s with run := false }
  | Event.online => { s with online := true }
  | Event.offline => { s with online := true }
  | Event.trace => s
  | Event.userMessage => s

/-! ## Buffer ownership transfer (node.rs, `process_wire_packet` and
`process_virtual_network_frame`) -/

/-- A data buffer handed across the host/engine boundary. The
`forgotten` flag records whether `std::mem::forget` has been applied to
the handle: a forgotten handle's destructor (its normal release path,
which would return the buffer to the core a second time) never runs at
scope exit. -/
structure Buffer where
  data_size : Nat
  forgotten : Bool
  deriving DecidableEq, Repr

/-- `std::mem::forget(data)`: the handle's destructor is suppressed. -/
def memForget (b : Buffer) : Buffer :=
  { b with forgotten := true }

/-- Whether scope exit runs the buffer handle's release path (Rust runs
the destructor exactly when the value was not forgotten). -/
def dropRunsRelease (b : Buffer) : Bool :=
  !b.forgotten

/-- `Node::process_wire_packet` (node.rs): calls
`ZT_Node_processWirePacket` on the buffer contents (the engine takes the
buffer), obtains a result code, then applies `std::mem::forget` to the
buffer handle, and returns the code. The returned pair is the result
code together with the final state of the caller's buffer handle. -/
def process_wire_packet (engineRc : ResultCode) (data : Buffer) :
    ResultCode × Buffer :=
  let rc := engineRc
  let data := memForget data
  (rc, data)

/-- `Node::process_virtual_network_frame` (node.rs): identical buffer
handling to `process_wire_packet`. -/
def process_virtual_network_frame (engineRc : ResultCode) (data : Buffer) :
    ResultCode × Buffer :=
  let rc := engineRc
  let data := memForget data
  (rc, data)

/-! ## The network registry (node.rs, `networks_by_id`)

`networks_by_id` is a `HashMap<u64, *mut Arc<N>>`. We embed it as an
association list from network ids (`Nat`, the u64 value) to pointer
values (`Nat`; Box::into_raw never yields the null pointer 0). Events
record the externally observable actions of each operation. -/

/-- Observable actions of the registry operations: releasing the boxed
network object registered under an id (running `Box::from_raw` drop),
the engine entry calls, and the registry insertion. -/
inductive Ev where
  | insertReg (nwid ptr : Nat)
  | releaseNet (nwid ptr : Nat)
  | engineJoin (nwid : Nat)
  | engineLeave (nwid : Nat)
  | engineDelete
  deriving DecidableEq, Repr

/-- The registry contents: an association list from network id to the
raw pointer stored for it. -/
abbrev Registry : Type := List (Nat × Nat)

/-- Lookup in the registry (HashMap get). -/
def regGet (m : Registry) (k : Nat) : Option Nat :=
  (m.find? (fun p => p.1 = k)).map (fun p => p.2)

/-- Key membership in the registry (HashMap contains_key). -/
def regContains (m : Registry) (k : Nat) : Bool :=
  (regGet m k).isSome

/-- Removal of a key (HashMap remove, dropping the returned value). -/
def regErase (m : Registry) (k : Nat) : Registry :=
  m.filter (fun p => p.1 ≠ k)

/-- Insertion (HashMap insert: replaces any previous binding). -/
def regInsert (m : Registry) (k v : Nat) : Registry :=
  (k, v) :: regErase m k

/-- `Node::delete_network_uptr` (node.rs): remove the entry for `nwid`
from the map (`unwrap_or(null)` when absent); when the removed pointer
is not null, reconstruct and drop the Box, releasing the owned network
object. Returns the new registry and the emitted release events. -/
def delete_network_uptr (m : Registry) (nwid : Nat) : Registry × List Ev :=
  let nptr := (regGet m nwid).getD 0
  if nptr ≠ 0 then
    (regErase m nwid, [Ev.releaseNet nwid nptr])
  else
    (regErase m nwid, [])

/-- `Node::join` (node.rs): box a clone of the network object
(`Box::into_raw` yields the fresh non-null pointer `ptr`), insert it
into `networks_by_id`, call `ZT_Node_join` (result `engineRc`), and on
any non-OK result roll the insertion back with `delete_network_uptr`.
Returns the result code, the new registry, and the event trace in
program order. -/
def nodeJoin (m : Registry) (ptr : Nat) (nwid : Nat) (engineRc : ResultCode) :
    ResultCode × Registry × List Ev :=
  let m1 := regInsert m nwid ptr
  if engineRc ≠ ResultCode.ok then
    (engineRc, (delete_network_uptr m1 nwid).1,
      [Ev.insertReg nwid ptr, Ev.engineJoin nwid] ++ (delete_network_uptr m1 nwid).2)
  else
    (engineRc, m1, [Ev.insertReg nwid ptr, Ev.engineJoin nwid])

/-- `Node::leave` (node.rs): unconditionally `delete_network_uptr`, then
call `ZT_Node_leave` and return its code. -/
def nodeLeave (m : Registry) (nwid : Nat) (engineRc : ResultCode) :
    ResultCode × Registry × List Ev :=
  (engineRc, (delete_network_uptr m nwid).1,
    (delete_network_uptr m nwid).2 ++ [Ev.engineLeave nwid])

/-- `impl Drop for Node` (node.rs): collect the keys of
`networks_by_id`, run `delete_network_uptr` on each, then call
`ZT_Node_delete`. `dropLoop` is the per-key loop. -/
def dropLoop (ks : List Nat) (m : Registry) : Registry × List Ev :=
  match ks with
  | [] => (m, [])
  | k :: rest =>
    let d := delete_network_uptr m k
    ((dropLoop rest d.1).1, d.2 ++ (dropLoop rest d.1).2)

/-- `impl Drop for Node` (node.rs): the full drop event trace. -/
def nodeDrop (m : Registry) : List Ev :=
  let nwids := m.map (fun p => p.1)
  (dropLoop nwids m).2 ++ [Ev.engineDelete]

/-- Whether an event is a release of an owned network object. -/
def Ev.isRelease : Ev → Bool
  | Ev.releaseNet _ _ => true
  | _ => false

/-! ## Sequences of join/leave calls -/

/-- A host-driven registry operation together with the result code the
engine returns for its entry call (the engine acts as an oracle). -/
inductive Op where
  | join (nwid : Nat) (engineRc : ResultCode)
  | leave (nwid : Nat) (engineRc : ResultCode)
  deriving DecidableEq, Repr

/-- Whether an operation concerns network id `x`. -/
def Op.affects (x : Nat) : Op → Bool
  | Op.join n _ => n = x
  | Op.leave n _ => n = x

/-- One operation applied to the registry. `c` is the fresh-pointer
supply (Box::into_raw yields pairwise distinct non-null pointers; we use
`c + 1, c + 2, ...`). -/
def stepOp (m : Registry) (c : Nat) : Op → Registry × Nat
  | Op.join nwid rc => ((nodeJoin m (c + 1) nwid rc).2.1, c + 1)
  | Op.leave nwid rc => ((nodeLeave m nwid rc).2.1, c)

/-- A sequence of join/leave operations applied in order. -/
def execOps (ops : List Op) (m : Registry) (c : Nat) : Registry :=
  match ops with
  | [] => m
  | op :: rest =>
    let (m1, c1) := stepOp m c op
    execOps rest m1 c1

/-- The last operation in the sequence affecting id `x`, if any. -/
def lastAffecting (x : Nat) : List Op → Option Op
  | [] => none
  | op :: rest =>
    match lastAffecting x rest with
    | some o => some o
    | none => if Op.affects x op then some op else none

/-- The registry-membership predicate the specification describes: `x`
is present exactly when the most recent call affecting `x` was a join
whose engine call returned OK, not yet followed by a leave. -/
def specContains (ops : List Op) (x : Nat) : Bool :=
  match lastAffecting x ops with
  | some (Op.join _ rc) => rc = ResultCode.ok
  | some (Op.leave _ _) => false
  | none => false

/-! ## Service configuration (localconfig settings consumed by
service.rs) -/

/-- The configuration fields of the local-config settings that
service.rs reads: primary port, optional secondary port, log file size
cap, log-to-stderr flag, auto-port-search flag, and the per-interface
blacklist (by device name). -/
structure Settings where
  primary_port : Nat
  secondary_port : Option Nat
  log_size_max : Nat
  log_to_stderr : Bool
  auto_port_search : Bool
  interface_blacklist : List String
  deriving DecidableEq, Repr

/-- `Settings::is_interface_blacklisted` membership test. -/
def Settings.is_interface_blacklisted (s : Settings) (dev : String) : Bool :=
  s.interface_blacklist.contains dev

/-! ## Desired socket addresses (service.rs, system_addrs construction) -/

/-- IP scope classification of an address (`IpScope` in the core
crate). -/
inductive IpScope where
  | none_
  | multicast
  | loopback
  | pseudoPrivate
  | global
  | linkLocal
  | shared
  | private_
  deriving DecidableEq, Repr

/-- A physical endpoint: address bytes (abstracted to a `Nat` identity)
plus a port. Two InetAddress values are compared by raw bytes, so
equality is componentwise. -/
structure InetAddress where
  ip : Nat
  port : Nat
  deriving DecidableEq, Repr

/-- One entry of the interface-address enumeration handed to the
closure in service.rs: the address, its IP scope (a function of the
address bytes), and the owning device name. -/
structure SysAddr where
  ip : Nat
  scope : IpScope
  dev : String
  deriving DecidableEq, Repr

/-- A `BTreeMap<InetAddress, String>` embedded as an association
list. -/
abbrev AddrMap : Type := List (InetAddress × String)

/-- BTreeMap insert: replaces any previous binding of the key. -/
def amInsert (m : AddrMap) (k : InetAddress) (v : String) : AddrMap :=
  (k, v) :: m.filter (fun p => p.1 ≠ k)

/-- BTreeMap contains_key. -/
def amContains (m : AddrMap) (k : InetAddress) : Bool :=
  m.any (fun p => p.1 = k)

/-- The match arm of the system_addrs closure (service.rs): an address
participates when its scope is Global, Private, PseudoPrivate or
Shared. -/
def usefulScope : IpScope → Bool
  | IpScope.global => true
  | IpScope.private_ => true
  | IpScope.pseudoPrivate => true
  | IpScope.shared => true
  | _ => false

/-- The body of the system_addrs closure for one enumerated address
(service.rs): on a useful scope and a non-blacklisted device, insert
the address rebound to the primary port, and, when a secondary port is
configured, also the address rebound to the secondary port. -/
def addSystemAddr (lc : Settings) (m : AddrMap) (e : SysAddr) : AddrMap :=
  if usefulScope e.scope then
    if !lc.is_interface_blacklisted e.dev then
      let m1 := amInsert m ⟨e.ip, lc.primary_port⟩ e.dev
      match lc.secondary_port with
      | some sp => amInsert m1 ⟨e.ip, sp⟩ e.dev
      | none => m1
    else m
  else m

/-- The full system_addrs construction (service.rs): fold the closure
over the interface enumeration, starting from the empty map. -/
def buildSystemAddrs (lc : Settings) (ifs : List SysAddr) : AddrMap :=
  ifs.foldl (addSystemAddr lc) []

/-! ## Socket reconciliation (service.rs, the udp_sockets diff) -/

/-- The socket-opening loop of service.rs: for every desired address not
already bound, attempt `FastUDPSocket::new`; on success insert the new
socket, on failure skip the address for this pass. `bindOk` is the
environment: whether binding the given address succeeds. Returns the
socket set and the list of successfully opened addresses. -/
def openLoop (bindOk : InetAddress → Bool) :
    List (InetAddress × String) → List InetAddress →
    List InetAddress × List InetAddress
  | [], socks => (socks, [])
  | (a, _) :: rest, socks =>
    if a ∈ socks then
      openLoop bindOk rest socks
    else if bindOk a then
      ((openLoop bindOk rest (socks ++ [a])).1,
        a :: (openLoop bindOk rest (socks ++ [a])).2)
    else
      openLoop bindOk rest socks

/-- One reconciliation pass of service.rs: close (remove) every bound
socket whose address is no longer in the desired map, then open sockets
for desired addresses not yet bound. Returns the new socket set, the
closed addresses, and the successfully opened addresses. -/
def reconcileSockets (desired : AddrMap) (socks : List InetAddress)
    (bindOk : InetAddress → Bool) :
    List InetAddress × List InetAddress × List InetAddress :=
  let toClose := socks.filter (fun a => !amContains desired a)
  let kept := socks.filter (fun a => amContains desired a)
  ((openLoop bindOk desired kept).1, toClose, (openLoop bindOk desired kept).2)

/-! ## Port-health classification (service.rs, the
primary/secondary-bind-failure loop) -/

/-- The body of the bind-failure loop in service.rs, iterating over the
bound socket addresses with the two failure flags as loop state. The
code reads `local_config.settings.secondary_port.unwrap()` on every
iteration that reaches the second comparison; when no secondary port is
configured that unwrap panics, which the embedding models as `none`. -/
def classifyLoop (lc : Settings) :
    List InetAddress → Bool → Bool → Option (Bool × Bool)
  | [], pf, sf => some (pf, sf)
  | s :: rest, pf, sf =>
    let pf1 := if s.port = lc.primary_port then false else pf
    if s.port = lc.primary_port ∧ sf = false then some (pf1, sf)
    else
      match lc.secondary_port with
      | none => none
      | some sp =>
        let sf1 := if s.port = sp then false else sf
        if s.port = sp ∧ pf1 = false then some (pf1, sf1)
        else classifyLoop lc rest pf1 sf1

/-- The full port-health classification step (service.rs): start from
`primary_port_bind_failure = true` and
`secondary_port_bind_failure = secondary_port.is_some()`, then run the
socket loop. `none` models the panic of the `unwrap` on an absent
secondary port. -/
def portBindClassify (lc : Settings) (socks : List InetAddress) :
    Option (Bool × Bool) :=
  classifyLoop lc socks true lc.secondary_port.isSome

/-! ## Config-change check (service.rs, inner loop) -/

/-- The mutable state of the logger that the config check adjusts in
place (`log.set_max_size`, `log.set_log_to_stderr`). -/
structure LogState where
  max_size : Nat
  to_stderr : Bool
  deriving DecidableEq, Repr

/-- What the inner serving loop does after the config comparison. -/
inductive LoopAction where
  | restartInner
  | continueServing
  deriving DecidableEq, Repr

/-- The config-change check of service.rs: with `current` the snapshot
held by the inner loop and `next` the freshly re-read configuration, a
primary-port difference breaks out of the inner loop (before any other
field is applied); otherwise log-size and log-destination differences
are applied to the logger in place and the loop continues with `next`
as its held snapshot. Returns the action, the snapshot the loop holds
afterwards, and the logger state. -/
def configCheck (current next : Settings) (log : LogState) :
    LoopAction × Settings × LogState :=
  if current.primary_port ≠ next.primary_port then
    (LoopAction.restartInner, current, log)
  else
    let log1 :=
      if current.log_size_max ≠ next.log_size_max then
        { log with max_size := next.log_size_max }
      else log
    let log2 :=
      if current.log_to_stderr ≠ next.log_to_stderr then
        { log1 with to_stderr := next.log_to_stderr }
      else log1
    (LoopAction.continueServing, next, log2)

/-! ## Theorems -/

/-- C5: for every engine-proposed absolute deadline (past or far
future, including values where the i64 subtraction wraps) and every
current time, `process_background_tasks` returns a delay `d` with
`1 <= d <= NODE_BACKGROUND_TASKS_MAX_INTERVAL` (250): never zero, never
negative, never above the maximum. -/
theorem process_background_tasks_range (current_time next_task_deadline : Int) :
    1 ≤ process_background_tasks current_time next_task_deadline ∧
    process_background_tasks current_time next_task_deadline ≤
      NODE_BACKGROUND_TASKS_MAX_INTERVAL := by
  unfold process_background_tasks NODE_BACKGROUND_TASKS_MAX_INTERVAL
  set d := toI64 (next_task_deadline - current_time) with hd
  by_cases h1 : d < 1
  · simp [h1, NODE_BACKGROUND_TASKS_MAX_INTERVAL]
  · by_cases h2 : d > (250 : Int)
    · simp [h1, h2, NODE_BACKGROUND_TASKS_MAX_INTERVAL]
    · simp only [h1, h2, if_false, NODE_BACKGROUND_TASKS_MAX_INTERVAL]
      omega

/-- C1: for every result code the engine returns (success or failure),
both `process_wire_packet` and `process_virtual_network_frame` consume
the Buffer passed in: the caller's normal release path never runs after
the call, on any return path, and the engine's code is returned
unchanged. -/
theorem processing_calls_consume_buffer (engineRc : ResultCode) (data : Buffer) :
    dropRunsRelease (process_wire_packet engineRc data).2 = false ∧
    (process_wire_packet engineRc data).1 = engineRc ∧
    dropRunsRelease (process_virtual_network_frame engineRc data).2 = false ∧
    (process_virtual_network_frame engineRc data).1 = engineRc := by
  simp [process_wire_packet, process_virtual_network_frame, dropRunsRelease,
    memForget]

/-- Once the online flag is true, no sequence of further events clears
it: no arm of `Service::event` ever stores false into it. -/
theorem serviceEvent_foldl_online (es : List Event) :
    ∀ s : ServiceState, s.online = true →
      (es.foldl serviceEvent s).online = true := by
  induction es with
  | nil => intro s h; simpa using h
  | cons e rest ih =>
    intro s h
    have h1 : (serviceEvent s e).online = true := by
      cases e <;> simp [serviceEvent, h]
    simpa [List.foldl] using ih _ h1

/-- C10: `Service::event` stores true into the online flag for both the
Online and the Offline event; no event kind stores false into it, so
once any Online or Offline event has been handled the online flag
remains true under every later event sequence. -/
theorem serviceEvent_online_spec (s : ServiceState) (e : Event) (es : List Event) :
    (serviceEvent s Event.online).online = true ∧
    (serviceEvent s Event.offline).online = true ∧
    (s.online = true → (serviceEvent s e).online = true) ∧
    (es.foldl serviceEvent (serviceEvent s Event.online)).online = true ∧
    (es.foldl serviceEvent (serviceEvent s Event.offline)).online = true := by
  refine ⟨rfl, rfl, ?_, ?_, ?_⟩
  · intro h; cases e <;> simp [serviceEvent, h]
  · exact serviceEvent_foldl_online es _ rfl
  · exact serviceEvent_foldl_online es _ rfl

/-- Witness for C10 at a concrete state and event sequence. -/
theorem serviceEvent_online_spec_witness :
    (serviceEvent ⟨true, true⟩ Event.down).online = true ∧
    ([Event.down, Event.trace].foldl serviceEvent
      (serviceEvent ⟨true, false⟩ Event.offline)).online = true := by
  have h := serviceEvent_online_spec ⟨true, true⟩ Event.down
    [Event.down, Event.trace]
  have h2 := serviceEvent_online_spec ⟨true, false⟩ Event.down
    [Event.down, Event.trace]
  exact ⟨h.2.2.1 rfl, h2.2.2.2.2⟩

/-- C8: evaluation of the port-health classification at the failing
input: one bound socket at port 9994, primary port 9993, no secondary
port configured. The loop reaches `secondary_port.unwrap()` and panics
(modelled as `none`) instead of completing normally. -/
theorem portBindClassify_panics_without_secondary :
    portBindClassify ⟨9993, none, 1000, false, false, []⟩ [⟨1, 9994⟩] = none := by
  rfl

/-! ### Registry lemmas -/

theorem regContains_eq_any (m : Registry) (x : Nat) :
    regContains m x = m.any (fun p => p.1 = x) := by
  induction m with
  | nil => rfl
  | cons p rest ih =>
    by_cases h : p.1 = x
    · simp [regContains, regGet, List.find?_cons, h]
    · simp only [regContains, regGet, List.find?_cons, List.any_cons]
      simp [h, ← ih, regContains, regGet]

theorem any_key_of_filter_ne (m : Registry) (k x : Nat) (h : ¬ x = k) :
    (List.any m fun a => !decide (a.1 = k) && decide (a.1 = x)) =
      List.any m fun p => decide (p.1 = x) := by
  induction m with
  | nil => rfl
  | cons p rest ih =>
    simp only [List.any_cons, ih]
    by_cases hp : p.1 = x
    · rw [hp]
      simp [h]
    · simp [hp]

theorem regContains_insert (m : Registry) (k v x : Nat) :
    regContains (regInsert m k v) x = (decide (x = k) || regContains m x) := by
  by_cases h : x = k
  · subst h
    simp [regContains_eq_any, regInsert]
  · simp only [regContains_eq_any, regInsert, regErase, List.any_cons,
      List.any_filter]
    simp [h, Ne.symm h, any_key_of_filter_ne m k x h]

theorem regContains_erase (m : Registry) (k x : Nat) :
    regContains (regErase m k) x = (decide (x ≠ k) && regContains m x) := by
  by_cases h : x = k
  · subst h
    simp only [regContains_eq_any, regErase, List.any_filter]
    simp
  · simp only [regContains_eq_any, regErase, List.any_filter]
    simp [h, any_key_of_filter_ne m k x h]

theorem regErase_of_not_contains (m : Registry) (k : Nat)
    (h : regContains m k = false) : regErase m k = m := by
  rw [regContains_eq_any] at h
  refine List.filter_eq_self.mpr ?_
  intro p hp
  have : ¬ p.1 = k := by
    intro hk
    have : m.any (fun p => p.1 = k) = true :=
      List.any_eq_true.mpr ⟨p, hp, by simp [hk]⟩
    simp [this] at h
  simpa using this

theorem regErase_insert_self (m : Registry) (k v : Nat) :
    regErase (regInsert m k v) k = regErase m k := by
  simp only [regInsert, regErase, List.filter_cons]
  simp [List.filter_filter]

theorem delete_network_uptr_registry (m : Registry) (k : Nat) :
    (delete_network_uptr m k).1 = regErase m k := by
  by_cases h : (regGet m k).getD 0 ≠ 0 <;> simp [delete_network_uptr, h]

theorem nodeJoin_registry (m : Registry) (ptr nwid : Nat) (rc : ResultCode) :
    (nodeJoin m ptr nwid rc).2.1 =
      if rc = ResultCode.ok then regInsert m nwid ptr else regErase m nwid := by
  by_cases h : rc = ResultCode.ok
  · simp [nodeJoin, h]
  · simp [nodeJoin, h, delete_network_uptr_registry, regErase_insert_self]

theorem nodeLeave_registry (m : Registry) (nwid : Nat) (rc : ResultCode) :
    (nodeLeave m nwid rc).2.1 = regErase m nwid := by
  simp [nodeLeave, delete_network_uptr_registry]

/-- Generalised form of C2 over an arbitrary starting registry: after a
sequence of operations, membership of `x` is decided by the last
operation affecting `x`, falling back to the starting registry when no
operation affects it. -/
theorem execOps_contains (ops : List Op) :
    ∀ (m : Registry) (c x : Nat),
      regContains (execOps ops m c) x =
        match lastAffecting x ops with
        | some (Op.join _ rc) => decide (rc = ResultCode.ok)
        | some (Op.leave _ _) => false
        | none => regContains m x := by
  induction ops with
  | nil => intro m c x; rfl
  | cons op rest ih =>
    intro m c x
    have hstep : execOps (op :: rest) m c =
        execOps rest (stepOp m c op).1 (stepOp m c op).2 := rfl
    rw [hstep, ih]
    cases hl : lastAffecting x rest with
    | some o =>
      cases op with
      | join n rc => cases o <;> simp [lastAffecting, hl]
      | leave n rc => cases o <;> simp [lastAffecting, hl]
    | none =>
      cases op with
      | join n rc =>
        simp only [lastAffecting, hl, Op.affects, stepOp, nodeJoin_registry]
        by_cases hx : n = x
        · by_cases hrc : rc = ResultCode.ok
          · simp [hx, hrc, regContains_insert]
          · simp [hx, hrc, regContains_erase]
        · have hx2 : ¬ x = n := fun h => hx h.symm
          by_cases hrc : rc = ResultCode.ok
          · simp [hx, hrc, regContains_insert, hx2]
          · simp [hx, hrc, regContains_erase, hx2]
      | leave n rc =>
        simp only [lastAffecting, hl, Op.affects, stepOp, nodeLeave_registry]
        by_cases hx : n = x
        · simp [hx, regContains_erase]
        · have hx2 : ¬ x = n := fun h => hx h.symm
          simp [hx, regContains_erase, hx2]

/-- C2: for every finite sequence of join and leave calls starting from
a fresh Node, the registry contains network id `x` if and only if the
most recent call affecting `x` was a join whose engine call returned OK
that has not been followed by a leave of `x`. -/
theorem networks_registry_tracks_joins (ops : List Op) (x : Nat) :
    regContains (execOps ops [] 0) x = specContains ops x := by
  rw [execOps_contains]
  unfold specContains
  cases lastAffecting x ops with
  | none => rfl
  | some o => cases o <;> rfl

/-- C3 counterexample: a join of an already-registered network id whose
engine call fails leaves the registry changed, not unchanged: the
pre-existing entry for that id is gone afterwards. -/
theorem nodeJoin_failed_changes_registry :
    (nodeJoin (regInsert [] 5 7) 9 5 ResultCode.errorInternalNonFatal).2.1 ≠
      regInsert [] 5 7 := by
  decide

/-- C3 (amended): join inserts the object into the registry and then
calls the engine join entry point (the trace starts with the insertion
followed by the engine call); on any non-OK engine result the inserted
entry is removed again, so after a failed join the registry holds no
entry for the joined id, every other id's membership is unchanged, and
when the id was not registered before the call the registry is exactly
as before. -/
theorem nodeJoin_rollback (m : Registry) (ptr nwid x : Nat) (rc : ResultCode)
    (hrc : rc ≠ ResultCode.ok) :
    ((nodeJoin m ptr nwid rc).2.2).take 2 =
      [Ev.insertReg nwid ptr, Ev.engineJoin nwid] ∧
    (nodeJoin m ptr nwid rc).2.1 = regErase m nwid ∧
    regContains ((nodeJoin m ptr nwid rc).2.1) nwid = false ∧
    (x ≠ nwid → regContains ((nodeJoin m ptr nwid rc).2.1) x = regContains m x) ∧
    (regContains m nwid = false → (nodeJoin m ptr nwid rc).2.1 = m) := by
  have hreg := nodeJoin_registry m ptr nwid rc
  rw [if_neg hrc] at hreg
  refine ⟨?_, hreg, ?_, ?_, ?_⟩
  · simp [nodeJoin, hrc]
  · rw [hreg, regContains_erase]
    simp
  · intro hx
    rw [hreg, regContains_erase]
    simp [hx]
  · intro hc
    rw [hreg]
    exact regErase_of_not_contains m nwid hc

/-- Witness for C3 (amended) at a failed join of id 5 over a registry
holding only id 3. -/
theorem nodeJoin_rollback_witness :
    regContains ((nodeJoin [(3, 7)] 9 5 ResultCode.errorNetworkNotFound).2.1) 5 =
      false ∧
    regContains ((nodeJoin [(3, 7)] 9 5 ResultCode.errorNetworkNotFound).2.1) 3 =
      regContains [(3, 7)] 3 ∧
    (nodeJoin [(3, 7)] 9 5 ResultCode.errorNetworkNotFound).2.1 = [(3, 7)] := by
  have h := nodeJoin_rollback [(3, 7)] 9 5 3 ResultCode.errorNetworkNotFound
    (by decide)
  exact ⟨h.2.2.1, h.2.2.2.1 (by decide), h.2.2.2.2 (by decide)⟩

/-- Running the drop loop over the keys of a registry with pairwise
distinct keys and non-null pointers empties the registry and releases
every entry in order. -/
theorem dropLoop_run (m : Registry) (hnd : (m.map Prod.fst).Nodup)
    (hnz : ∀ p ∈ m, p.2 ≠ 0) :
    dropLoop (m.map (fun p => p.1)) m =
      ([], m.map (fun p => Ev.releaseNet p.1 p.2)) := by
  induction m with
  | nil => rfl
  | cons p rest ih =>
    obtain ⟨k, v⟩ := p
    have hknotin : k ∉ rest.map Prod.fst := (List.nodup_cons.mp hnd).1
    have hk : ∀ q ∈ rest, ¬ q.1 = k := by
      intro q hq hqk
      exact hknotin (hqk ▸ List.mem_map_of_mem Prod.fst hq)
    have hv : v ≠ 0 := hnz (k, v) (List.mem_cons_self _ _)
    have hdel : delete_network_uptr ((k, v) :: rest) k =
        (rest, [Ev.releaseNet k v]) := by
      have hget : regGet ((k, v) :: rest) k = some v := by
        simp [regGet, List.find?_cons]
      have herase : regErase ((k, v) :: rest) k = rest := by
        have h0 : regErase ((k, v) :: rest) k = regErase rest k := by
          simp [regErase, List.filter_cons]
        rw [h0]
        refine List.filter_eq_self.mpr ?_
        intro q hq
        simpa using hk q hq
      simp [delete_network_uptr, hget, hv, herase]
    have hrec := ih (List.nodup_cons.mp hnd).2
      (fun q hq => hnz q (List.mem_cons_of_mem _ hq))
    show dropLoop (k :: rest.map (fun p => p.1)) ((k, v) :: rest) = _
    rw [dropLoop]
    simp only [hdel, hrec]
    rfl

/-- C4: destroying a Node holding `N` registered networks (pairwise
distinct ids, non-null stored pointers) produces the release of exactly
the `N` owned network objects, each exactly once, all before the engine
instance is deleted: the drop trace is precisely the per-entry releases
followed by the engine deletion. -/
theorem nodeDrop_spec (m : Registry) (k v : Nat)
    (hnd : (m.map Prod.fst).Nodup) (hnz : ∀ p ∈ m, p.2 ≠ 0)
    (hkv : (k, v) ∈ m) :
    nodeDrop m = m.map (fun p => Ev.releaseNet p.1 p.2) ++ [Ev.engineDelete] ∧
    ((nodeDrop m).filter Ev.isRelease).length = m.length ∧
    (nodeDrop m).count (Ev.releaseNet k v) = 1 ∧
    (nodeDrop m).getLast? = some Ev.engineDelete := by
  have htr : nodeDrop m =
      m.map (fun p => Ev.releaseNet p.1 p.2) ++ [Ev.engineDelete] := by
    have h0 : nodeDrop m =
        (dropLoop (m.map fun p => p.1) m).2 ++ [Ev.engineDelete] := rfl
    rw [h0, dropLoop_run m hnd hnz]
  refine ⟨htr, ?_, ?_, ?_⟩
  · rw [htr, List.filter_append]
    have h1 : (m.map fun p => Ev.releaseNet p.1 p.2).filter Ev.isRelease =
        m.map fun p => Ev.releaseNet p.1 p.2 := by
      refine List.filter_eq_self.mpr ?_
      intro a ha
      obtain ⟨p, _, rfl⟩ := List.mem_map.mp ha
      rfl
    simp [h1, Ev.isRelease]
  · rw [htr, List.count_append]
    have hmnd : m.Nodup := List.Nodup.of_map Prod.fst hnd
    have hinj : Function.Injective fun p : Nat × Nat => Ev.releaseNet p.1 p.2 := by
      intro a b hab
      cases a; cases b
      simpa [Ev.releaseNet.injEq, Prod.ext_iff] using hab
    have hmapnd : (m.map fun p => Ev.releaseNet p.1 p.2).Nodup :=
      hmnd.map hinj
    have hmem : Ev.releaseNet k v ∈ m.map fun p => Ev.releaseNet p.1 p.2 :=
      List.mem_map.mpr ⟨(k, v), hkv, rfl⟩
    have hone : (m.map fun p => Ev.releaseNet p.1 p.2).count
        (Ev.releaseNet k v) = 1 :=
      List.count_eq_one_of_mem hmapnd hmem
    simp [hone]
  · rw [htr]
    simp

/-- Witness for C4 on a registry with two entries. -/
theorem nodeDrop_spec_witness :
    nodeDrop [(1, 10), (2, 20)] =
      [Ev.releaseNet 1 10, Ev.releaseNet 2 20, Ev.engineDelete] ∧
    ((nodeDrop [(1, 10), (2, 20)]).filter Ev.isRelease).length = 2 ∧
    (nodeDrop [(1, 10), (2, 20)]).count (Ev.releaseNet 1 10) = 1 ∧
    (nodeDrop [(1, 10), (2, 20)]).getLast? = some Ev.engineDelete := by
  have h := nodeDrop_spec [(1, 10), (2, 20)] 1 10 (by decide) (by decide)
    (by decide)
  exact ⟨by rw [h.1]; rfl, h.2.1, h.2.2.1, h.2.2.2⟩

/-! ### Desired-address-set lemmas -/

theorem amContains_iff (m : AddrMap) (a : InetAddress) :
    amContains m a = true ↔ ∃ p ∈ m, p.1 = a := by
  simp [amContains, List.any_eq_true]

theorem amContains_insert (m : AddrMap) (k : InetAddress) (v : String)
    (a : InetAddress) :
    (amContains (amInsert m k v) a = true) ↔ (a = k ∨ amContains m a = true) := by
  simp only [amContains_iff, amInsert, List.mem_cons, List.mem_filter]
  constructor
  · rintro ⟨p, hp | hp, ha⟩
    · left
      rw [← ha, hp]
    · right
      exact ⟨p, hp.1, ha⟩
  · rintro (rfl | ⟨p, hp, ha⟩)
    · exact ⟨(a, v), Or.inl rfl, rfl⟩
    · by_cases hk : p.1 = k
      · refine ⟨(k, v), Or.inl rfl, ?_⟩
        rw [← hk]
        exact ha
      · exact ⟨p, Or.inr ⟨hp, by simpa using hk⟩, ha⟩

/-- Membership effect of processing one enumerated interface address. -/
theorem addSystemAddr_contains (lc : Settings) (m : AddrMap) (e : SysAddr)
    (a : InetAddress) :
    (amContains (addSystemAddr lc m e) a = true) ↔
      ((usefulScope e.scope = true ∧
        lc.is_interface_blacklisted e.dev = false ∧ e.ip = a.ip ∧
        (a.port = lc.primary_port ∨ lc.secondary_port = some a.port)) ∨
       amContains m a = true) := by
  obtain ⟨aip, aport⟩ := a
  by_cases hs : usefulScope e.scope = true
  · by_cases hb : lc.is_interface_blacklisted e.dev = true
    · have hbody : addSystemAddr lc m e = m := by
        simp [addSystemAddr, hs, hb]
      rw [hbody]
      simp [hs, hb]
    · have hb2 : lc.is_interface_blacklisted e.dev = false := by
        simpa using hb
      cases hsec : lc.secondary_port with
      | none =>
        have hbody : addSystemAddr lc m e =
            amInsert m ⟨e.ip, lc.primary_port⟩ e.dev := by
          simp [addSystemAddr, hs, hb2, hsec]
        rw [hbody, amContains_insert]
        simp only [hs, hb2, hsec, InetAddress.mk.injEq, true_and]
        constructor
        · rintro (⟨h1, h2⟩ | h)
          · exact Or.inl ⟨h1.symm, Or.inl h2⟩
          · exact Or.inr h
        · rintro (⟨h3, h4 | h4⟩ | h)
          · exact Or.inl ⟨h3.symm, h4⟩
          · cases h4
          · exact Or.inr h
      | some sp =>
        have hbody : addSystemAddr lc m e =
            amInsert (amInsert m ⟨e.ip, lc.primary_port⟩ e.dev)
              ⟨e.ip, sp⟩ e.dev := by
          simp [addSystemAddr, hs, hb2, hsec]
        rw [hbody, amContains_insert, amContains_insert]
        simp only [hs, hb2, hsec, InetAddress.mk.injEq, true_and,
          Option.some.injEq]
        constructor
        · rintro (⟨h1, h2⟩ | ⟨h1, h2⟩ | h)
          · exact Or.inl ⟨h1.symm, Or.inr h2.symm⟩
          · exact Or.inl ⟨h1.symm, Or.inl h2⟩
          · exact Or.inr h
        · rintro (⟨h3, h4 | h4⟩ | h)
          · exact Or.inr (Or.inl ⟨h3.symm, h4⟩)
          · exact Or.inl ⟨h3.symm, h4.symm⟩
          · exact Or.inr (Or.inr h)
  · have hbody : addSystemAddr lc m e = m := by
      simp [addSystemAddr, hs]
    rw [hbody]
    simp [hs]

/-- Generalised fold form of C6 over an arbitrary accumulator. -/
theorem buildSystemAddrs_go (lc : Settings) (ifs : List SysAddr) :
    ∀ (m : AddrMap) (a : InetAddress),
      (amContains (ifs.foldl (addSystemAddr lc) m) a = true) ↔
        ((∃ e ∈ ifs, usefulScope e.scope = true ∧
          lc.is_interface_blacklisted e.dev = false ∧ e.ip = a.ip ∧
          (a.port = lc.primary_port ∨ lc.secondary_port = some a.port)) ∨
         amContains m a = true) := by
  induction ifs with
  | nil => intro m a; simp
  | cons e rest ih =>
    intro m a
    rw [List.foldl_cons, ih]
    rw [addSystemAddr_contains]
    constructor
    · rintro (⟨e2, he2, h⟩ | h | h)
      · exact Or.inl ⟨e2, List.mem_cons_of_mem _ he2, h⟩
      · exact Or.inl ⟨e, List.mem_cons_self _ _, h⟩
      · exact Or.inr h
    · rintro (⟨e2, he2, h⟩ | h)
      · rcases List.mem_cons.mp he2 with rfl | he2
        · exact Or.inr (Or.inl h)
        · exact Or.inl ⟨e2, he2, h⟩
      · exact Or.inr (Or.inr h)

/-- C6: for every interface enumeration and configuration, the desired
socket-address map contains an endpoint exactly when some enumerated
interface address with a Global, Private, PseudoPrivate or Shared scope
and a non-blacklisted device has that endpoint's address bytes, and the
endpoint's port is the primary port or the configured secondary port;
no other endpoint is included. -/
theorem buildSystemAddrs_spec (lc : Settings) (ifs : List SysAddr)
    (a : InetAddress) :
    amContains (buildSystemAddrs lc ifs) a = true ↔
      ∃ e ∈ ifs, usefulScope e.scope = true ∧
        lc.is_interface_blacklisted e.dev = false ∧ e.ip = a.ip ∧
        (a.port = lc.primary_port ∨ lc.secondary_port = some a.port) := by
  unfold buildSystemAddrs
  rw [buildSystemAddrs_go]
  simp [amContains]

/-! ### Socket reconciliation lemmas -/

/-- Membership in the socket set produced by the opening loop: an
address is bound afterwards exactly when it was bound before, or it is
desired and binding it succeeds. -/
theorem openLoop_mem (bindOk : InetAddress → Bool)
    (d : List (InetAddress × String)) :
    ∀ (socks : List InetAddress) (a : InetAddress),
      a ∈ (openLoop bindOk d socks).1 ↔
        (a ∈ socks ∨ ((∃ p ∈ d, p.1 = a) ∧ bindOk a = true)) := by
  induction d with
  | nil => intro socks a; simp [openLoop]
  | cons hd rest ih =>
    intro socks a
    obtain ⟨b, dev⟩ := hd
    by_cases hb : b ∈ socks
    · rw [show openLoop bindOk ((b, dev) :: rest) socks =
          openLoop bindOk rest socks from by simp [openLoop, hb]]
      rw [ih]
      constructor
      · rintro (h | ⟨⟨p, hp, rfl⟩, hok⟩)
        · exact Or.inl h
        · exact Or.inr ⟨⟨p, List.mem_cons_of_mem _ hp, rfl⟩, hok⟩
      · rintro (h | ⟨⟨p, hp, rfl⟩, hok⟩)
        · exact Or.inl h
        · rcases List.mem_cons.mp hp with rfl | hp
          · exact Or.inl hb
          · exact Or.inr ⟨⟨p, hp, rfl⟩, hok⟩
    · by_cases hok : bindOk b = true
      · rw [show openLoop bindOk ((b, dev) :: rest) socks =
            ((openLoop bindOk rest (socks ++ [b])).1,
              b :: (openLoop bindOk rest (socks ++ [b])).2) from by
          simp [openLoop, hb, hok]]
        rw [show ((openLoop bindOk rest (socks ++ [b])).1,
              b :: (openLoop bindOk rest (socks ++ [b])).2).1 =
            (openLoop bindOk rest (socks ++ [b])).1 from rfl]
        rw [ih]
        simp only [List.mem_append, List.mem_singleton]
        constructor
        · rintro ((h | rfl) | ⟨⟨p, hp, rfl⟩, hok2⟩)
          · exact Or.inl h
          · exact Or.inr ⟨⟨(a, dev), List.mem_cons_self _ _, rfl⟩, hok⟩
          · exact Or.inr ⟨⟨p, List.mem_cons_of_mem _ hp, rfl⟩, hok2⟩
        · rintro (h | ⟨⟨p, hp, rfl⟩, hok2⟩)
          · exact Or.inl (Or.inl h)
          · rcases List.mem_cons.mp hp with rfl | hp
            · exact Or.inl (Or.inr rfl)
            · exact Or.inr ⟨⟨p, hp, rfl⟩, hok2⟩
      · rw [show openLoop bindOk ((b, dev) :: rest) socks =
            openLoop bindOk rest socks from by simp [openLoop, hb, hok]]
        rw [ih]
        constructor
        · rintro (h | ⟨⟨p, hp, rfl⟩, hok2⟩)
          · exact Or.inl h
          · exact Or.inr ⟨⟨p, List.mem_cons_of_mem _ hp, rfl⟩, hok2⟩
        · rintro (h | ⟨⟨p, hp, rfl⟩, hok2⟩)
          · exact Or.inl h
          · rcases List.mem_cons.mp hp with rfl | hp
            · exact absurd hok2 hok
            · exact Or.inr ⟨⟨p, hp, rfl⟩, hok2⟩

/-- When every desired, bindable address is already bound, the opening
loop does nothing: no socket is opened and the set is unchanged. -/
theorem openLoop_noop (bindOk : InetAddress → Bool)
    (d : List (InetAddress × String)) :
    ∀ socks : List InetAddress,
      (∀ p ∈ d, bindOk p.1 = true → p.1 ∈ socks) →
      openLoop bindOk d socks = (socks, []) := by
  induction d with
  | nil => intro socks _; rfl
  | cons hd rest ih =>
    intro socks h
    obtain ⟨b, dev⟩ := hd
    by_cases hb : b ∈ socks
    · rw [show openLoop bindOk ((b, dev) :: rest) socks =
          openLoop bindOk rest socks from by simp [openLoop, hb]]
      exact ih socks (fun p hp => h p (List.mem_cons_of_mem _ hp))
    · have hok : ¬ bindOk b = true := by
        intro hok
        exact hb (h (b, dev) (List.mem_cons_self _ _) hok)
      rw [show openLoop bindOk ((b, dev) :: rest) socks =
          openLoop bindOk rest socks from by simp [openLoop, hb, hok]]
      exact ih socks (fun p hp => h p (List.mem_cons_of_mem _ hp))

/-- Every address bound after a reconciliation pass is desired. -/
theorem reconcile_sockets_desired (desired : AddrMap)
    (socks : List InetAddress) (bindOk : InetAddress → Bool)
    (a : InetAddress)
    (ha : a ∈ (reconcileSockets desired socks bindOk).1) :
    amContains desired a = true := by
  unfold reconcileSockets at ha
  rcases (openLoop_mem bindOk desired _ a).mp ha with h | ⟨⟨p, hp, rfl⟩, _⟩
  · exact (List.mem_filter.mp h).2
  · exact (amContains_iff desired p.1).mpr ⟨p, hp, rfl⟩

/-- C7: the socket reconciliation step is idempotent. Running it a
second time with the same desired map, the same bind environment, and
the socket set produced by the first run closes zero sockets, opens
zero sockets, and leaves the socket set unchanged. -/
theorem reconcileSockets_idempotent (desired : AddrMap)
    (socks : List InetAddress) (bindOk : InetAddress → Bool) :
    (reconcileSockets desired
      (reconcileSockets desired socks bindOk).1 bindOk).2.1 = [] ∧
    (reconcileSockets desired
      (reconcileSockets desired socks bindOk).1 bindOk).2.2 = [] ∧
    (reconcileSockets desired
      (reconcileSockets desired socks bindOk).1 bindOk).1 =
      (reconcileSockets desired socks bindOk).1 := by
  set s1 := (reconcileSockets desired socks bindOk).1 with hs1
  have hdes : ∀ a ∈ s1, amContains desired a = true := by
    intro a ha
    exact reconcile_sockets_desired desired socks bindOk a ha
  have hkeep : s1.filter (fun a => amContains desired a) = s1 :=
    List.filter_eq_self.mpr (fun a ha => hdes a ha)
  have hclose : s1.filter (fun a => !amContains desired a) = [] := by
    refine List.filter_eq_nil_iff.mpr ?_
    intro a ha
    simp [hdes a ha]
  have hopen : ∀ p ∈ desired, bindOk p.1 = true →
      p.1 ∈ s1.filter (fun a => amContains desired a) := by
    intro p hp hok
    rw [hkeep, hs1]
    unfold reconcileSockets
    exact (openLoop_mem bindOk desired _ p.1).mpr
      (Or.inr ⟨⟨p, hp, rfl⟩, hok⟩)
  have hnoop := openLoop_noop bindOk desired
    (s1.filter (fun a => amContains desired a)) hopen
  refine ⟨?_, ?_, ?_⟩
  · show s1.filter (fun a => !amContains desired a) = []
    exact hclose
  · show (openLoop bindOk desired
      (s1.filter (fun a => amContains desired a))).2 = []
    rw [hnoop]
  · show (openLoop bindOk desired
      (s1.filter (fun a => amContains desired a))).1 = s1
    rw [hnoop, hkeep]

/-- C9: with the logger tracking the held snapshot, a re-read
configuration equal in primary port is applied in place (the serving
loop continues, the snapshot becomes the new config, the logger carries
the new log size and destination); a re-read configuration with a
different primary port makes the inner loop exit to the restart path,
with nothing applied. After the restart the loop holds the new config
as its snapshot, so comparing it against itself continues serving: the
exit happens exactly once per change. -/
theorem configCheck_spec (current next : Settings) (log : LogState)
    (hlog : log = ⟨current.log_size_max, current.log_to_stderr⟩) :
    (current.primary_port = next.primary_port →
      configCheck current next log =
        (LoopAction.continueServing, next,
          ⟨next.log_size_max, next.log_to_stderr⟩)) ∧
    (current.primary_port ≠ next.primary_port →
      configCheck current next log =
        (LoopAction.restartInner, current, log)) ∧
    (configCheck next next log).1 = LoopAction.continueServing ∧
    (configCheck next next log).2.2 = log := by
  subst hlog
  refine ⟨?_, ?_, ?_, ?_⟩
  · intro hp
    by_cases h1 : current.log_size_max = next.log_size_max <;>
      by_cases h2 : current.log_to_stderr = next.log_to_stderr <;>
        simp [configCheck, hp, h1, h2]
  · intro hp
    simp [configCheck, hp]
  · simp [configCheck]
  · simp [configCheck]

/-- Witness for C9: a log-size-only change continues serving with the
new size applied in place; a primary-port change exits to the restart
path. -/
theorem configCheck_spec_witness :
    configCheck ⟨9993, none, 100, false, false, []⟩
        ⟨9993, none, 200, false, false, []⟩ ⟨100, false⟩ =
      (LoopAction.continueServing, ⟨9993, none, 200, false, false, []⟩,
        ⟨200, false⟩) ∧
    configCheck ⟨9993, none, 100, false, false, []⟩
        ⟨9994, none, 100, false, false, []⟩ ⟨100, false⟩ =
      (LoopAction.restartInner, ⟨9993, none, 100, false, false, []⟩,
        ⟨100, false⟩) := by
  have h1 := configCheck_spec ⟨9993, none, 100, false, false, []⟩
    ⟨9993, none, 200, false, false, []⟩ ⟨100, false⟩ rfl
  have h2 := configCheck_spec ⟨9993, none, 100, false, false, []⟩
    ⟨9994, none, 100, false, false, []⟩ ⟨100, false⟩ rfl
  exact ⟨h1.1 rfl, h2.2.1 (by decide)⟩

end ZT
